import Mathlib

/-!
# Verification of the credibil/did DID toolkit

Shallow embedding of the `credibil/did` crate: the `Method` enumeration
(src/lib.rs), the `Keyring` key store (crates/kms/src/lib.rs), the
`did:web` / `did:webvh` URL transformations and resolvers
(src/web/resolver.rs, src/webvh/resolver.rs), and a model of the
`did:webvh` log engine (create / update / deactivate builders and
`resolve_log`), whose implementation is outside the packaged sources and
is therefore modelled from the specification.
-/

namespace Credibil

/-- Domain-level error kinds (spec section 7; `Error` in src/error.rs). -/
inductive Err where
  | invalidDid (msg : String)
  | methodNotSupported (msg : String)
  | representationNotSupported (msg : String)
  | notFound
  | proofVerification
  | preRotationMismatch
  | chainBroken
  | scidMismatch
  | witnessThreshold
  | portabilityViolation
  | other (msg : String)
deriving DecidableEq, Repr

/-- DID methods supported by the crate (src/lib.rs, `enum Method`). -/
inductive Method where
  | key
  | web
  | webVh
deriving DecidableEq, Repr

/-- `impl Display for Method` (src/lib.rs). -/
def Method.display : Method → String
  | .key => "key"
  | .web => "web"
  | .webVh => "webvh"

/-- `impl FromStr for Method` (src/lib.rs): only "key", "web" and "webvh"
parse; anything else is `MethodNotSupported`. -/
def Method.fromStr (s : String) : Except Err Method :=
  if s = "key" then .ok .key
  else if s = "web" then .ok .web
  else if s = "webvh" then .ok .webVh
  else .error (.methodNotSupported s)

/-! ## Keyring (crates/kms/src/lib.rs)

`HashMap<String, String>` is modelled as an association list with
duplicate-free keys (the well-formedness every `HashMap` enjoys).
Random key generation (`SigningKey::generate(&mut OsRng)`) is modelled by
an oracle `gen : String → String` supplying the fresh key generated for
each id. -/

/-- Association-list lookup, the model of `HashMap::get`. -/
def mapLookup (m : List (String × String)) (k : String) : Option String :=
  (m.find? (fun p => p.1 == k)).map (fun p => p.2)

/-- Insert-or-overwrite, the model of `*map.entry(k).or_insert(v0) = v`
(the returned reference is assigned, so the existing value is replaced). -/
def mapInsert (m : List (String × String)) (k v : String) : List (String × String) :=
  if m.any (fun p => p.1 == k) then
    m.map (fun p => if p.1 == k then (k, v) else p)
  else
    (k, v) :: m

/-- The `Keyring` state (crates/kms/src/lib.rs). -/
structure Keyring where
  keys : List (String × String)
  next_keys : List (String × String)
  verification_method : String
deriving DecidableEq, Repr

/-- `Keyring::rotate` (crates/kms/src/lib.rs lines 52-63): every pending
next key overwrites the corresponding current key, then `next_keys` is
cleared and refilled with a freshly generated key for every id now in
`keys`.  The oracle `gen` supplies the fresh key for each id. -/
def Keyring.rotate (gen : String → String) (kr : Keyring) : Keyring :=
  let keys := kr.next_keys.foldl (fun m p => mapInsert m p.1 p.2) kr.keys
  { kr with
    keys := keys
    next_keys := keys.map (fun p => (p.1, gen p.1)) }

/-! ## URL transformation (src/web/resolver.rs, src/webvh/resolver.rs)

Strings are handled as `List Char`.  The anchored regexes
`^did:web:(?<identifier>[a-zA-Z0-9.\-:%]+)$` and
`^did:webvh:(?<identifier>[a-zA-Z0-9.\-:%]+)$` are modelled by a prefix
strip followed by a character-class check on the (non-empty) remainder,
which is exactly the language those anchored patterns accept. -/

/-- Character class `[a-zA-Z0-9.\-:%]` of the DID regexes. -/
def allowedChar (c : Char) : Bool :=
  (c.isUpper || c.isLower) || c.isDigit || c == '.' || c == '-' || c == ':' || c == '%'

/-- Strips `pre` from the front of `cs`, or fails. -/
def stripPrefixL : List Char → List Char → Option (List Char)
  | [], cs => some cs
  | _ :: _, [] => none
  | p :: ps, c :: cs => if c = p then stripPrefixL ps cs else none

/-- Model of matching `^<pre>(?<identifier>[a-zA-Z0-9.\-:%]+)$` and
capturing `identifier`. -/
def matchDidL (pre did : List Char) : Option (List Char) :=
  match stripPrefixL pre did with
  | none => none
  | some ident => if ident ≠ [] ∧ ident.all allowedChar then some ident else none

/-- `str::replace(':', "/")`: every colon becomes a slash. -/
def replaceColons (cs : List Char) : List Char :=
  cs.map fun c => if c = ':' then '/' else c

/-- `str::replace("%3A", ":")`: left-to-right, non-overlapping. -/
def decodePort : List Char → List Char
  | [] => []
  | [c] => [c]
  | [c1, c2] => [c1, c2]
  | c1 :: c2 :: c3 :: rest =>
    if c1 = '%' ∧ c2 = '3' ∧ c3 = 'A' then ':' :: decodePort rest
    else c1 :: decodePort (c2 :: c3 :: rest)

/-- Splits at the first colon (`str::split_once(':')`). -/
def splitFirstColon : List Char → Option (List Char × List Char)
  | [] => none
  | c :: cs =>
    if c = ':' then some ([], cs)
    else (splitFirstColon cs).map fun p => (c :: p.1, p.2)

/-- `DidWeb::url` (src/web/resolver.rs lines 73-99): match the regex,
replace colons with slashes, percent-decode `%3A`, prepend `https://`,
insert `/.well-known` when the identifier has no (unescaped) colon, and
append `/did.json`. -/
def didWebUrl (did : List Char) : Except Err (List Char) :=
  match matchDidL "did:web:".toList did with
  | none => .error (.invalidDid "DID is not a valid did:web")
  | some identifier =>
    let domain := replaceColons identifier
    let domain := decodePort domain
    let url := "https://".toList ++ domain
    let url := if ':' ∈ identifier then url else url ++ "/.well-known".toList
    .ok (url ++ "/did.json".toList)

/-- `DidWebVh::url` (src/webvh/resolver.rs lines 87-120): match the regex,
strip the SCID up to the first colon, replace colons with slashes, insert
`/.well-known` when the remaining identifier has no colon, percent-decode
`%3A`, prepend `https://`, and append `/did.jsonl`. -/
def didWebVhUrl (did : List Char) : Except Err (List Char) :=
  match matchDidL "did:webvh:".toList did with
  | none => .error (.invalidDid "DID is not a valid did:webvh")
  | some scidAndIdentifier =>
    match splitFirstColon scidAndIdentifier with
    | none => .error (.invalidDid "DID is not a valid did:webvh - no SCID")
    | some (_, identifier) =>
      let domain := replaceColons identifier
      let domain := if ':' ∈ identifier then domain else domain ++ "/.well-known".toList
      let domain := decodePort domain
      .ok ("https://".toList ++ domain ++ "/did.jsonl".toList)

/-- String-level wrapper of `DidWeb::url`. -/
def DidWeb.url (did : String) : Except Err String :=
  (didWebUrl did.toList).map fun cs => String.mk cs

/-- String-level wrapper of `DidWebVh::url`. -/
def DidWebVh.url (did : String) : Except Err String :=
  (didWebVhUrl did.toList).map fun cs => String.mk cs

/-- The transformation the spec describes for a `did:web` identifier
(spec section 4.4): colons to slashes, `%3A` decoded, `https://` in front,
`/.well-known` exactly when the identifier has no unescaped colon,
`/did.json` at the end. -/
def webUrlSpec (identifier : List Char) : List Char :=
  "https://".toList ++ decodePort (replaceColons identifier)
    ++ (if ':' ∈ identifier then [] else "/.well-known".toList)
    ++ "/did.json".toList

/-- The transformation the spec describes for a `did:webvh` identifier
(spec section 4.4): the SCID is stripped by the caller; then as for
`did:web` but terminated by `/did.jsonl`. -/
def webvhUrlSpec (identifier : List Char) : List Char :=
  "https://".toList ++ decodePort (replaceColons identifier)
    ++ (if ':' ∈ identifier then [] else "/.well-known".toList)
    ++ "/did.jsonl".toList

/-! ## Resolvers (src/web/resolver.rs, src/webvh/resolver.rs)

The asynchronous `DidResolver` capability is modelled as a function from the
URL to either a document or an error message. -/

/-- Content types known to the resolvers (`ContentType` in src/resolve.rs). -/
inductive ContentType where
  | didLdJson
  | jsonL
deriving DecidableEq, Repr

/-- The `did` object inside resolution metadata. -/
structure DidInfo where
  didString : String
  methodSpecificId : String
  method : String
deriving DecidableEq, Repr

/-- Resolution metadata (`Metadata` in src/resolve.rs, with its `additional`
JSON payload made explicit). -/
structure ResolveMeta where
  contentType : ContentType
  pattern : String
  did : DidInfo
deriving DecidableEq, Repr

/-- `Resolved` (src/resolve.rs): the value returned to resolution callers. -/
structure Resolved (Doc : Type) where
  context : String
  metadata : ResolveMeta
  document : Option Doc
deriving DecidableEq, Repr

/-- Resolution options; only the `accept` field is consulted. -/
structure ResolveOptions where
  accept : Option ContentType
deriving DecidableEq, Repr

/-- `DidWeb::resolve` (src/web/resolver.rs lines 32-65).  The `options`
argument is ignored by the source.  `did[8..]` is modelled as
`String.drop did 8` (the DIDs involved are ASCII, where byte and character
offsets agree). -/
def DidWeb.resolve {Doc : Type} (did : String) (options : Option ResolveOptions)
    (resolver : String → Except String Doc) : Except Err (Resolved Doc) :=
  match DidWeb.url did with
  | .error e => .error e
  | .ok url =>
    match resolver url with
    | .error msg => .error (.other msg)
    | .ok document =>
      .ok { context := "https://w3id.org/did-resolution/v1"
            metadata :=
              { contentType := .didLdJson
                pattern := "^did:web:(?<identifier>[a-zA-Z0-9.\\-:\\%]+)$"
                did :=
                  { didString := did
                    methodSpecificId := did.drop 8
                    method := "web" } }
            document := some document }

/-- The fetch-and-package tail of `DidWebVh::resolve` (src/webvh/resolver.rs
lines 50-72): consult the resolver and build the `Resolved` value. -/
def DidWebVh.resolveFetch {Doc : Type} (did url : String)
    (resolver : String → Except String Doc) : Except Err (Resolved Doc) :=
  match resolver url with
  | .error msg => .error (.other msg)
  | .ok document =>
    .ok { context := "https://w3id.org/did-resolution/v1"
          metadata :=
            { contentType := .didLdJson
              pattern := "^did:webvh:(?<identifier>[a-zA-Z0-9.\\-:\\%]+)$"
              did :=
                { didString := did
                  methodSpecificId := did.drop 8
                  method := "webvh" } }
          document := some document }

/-- `DidWebVh::resolve` (src/webvh/resolver.rs lines 33-72): compute the URL,
reject an `accept` other than `JsonL`, and only then consult the resolver.
`did[8..]` is modelled as `String.drop did 8` exactly as the source slices
it (the `did:webvh:` prefix is 10 bytes long, so 8 leaves `h:` behind). -/
def DidWebVh.resolve {Doc : Type} (did : String) (options : Option ResolveOptions)
    (resolver : String → Except String Doc) : Except Err (Resolved Doc) :=
  match DidWebVh.url did with
  | .error e => .error e
  | .ok url =>
    match options with
    | some opts =>
      match opts.accept with
      | some ct =>
        if ct ≠ ContentType.jsonL then
          .error (.representationNotSupported "Content type must be text/json")
        else
          DidWebVh.resolveFetch did url resolver
      | none => DidWebVh.resolveFetch did url resolver
    | none => DidWebVh.resolveFetch did url resolver

/-! ## did:webvh log engine

The builders (`CreateBuilder`, `UpdateBuilder`, `DeactivateBuilder`) and
`resolve_log` live in modules of this crate that are not in the packaged
sources (only src/tests/ exercises them), so they are modelled from the
specification (spec sections 3, 4.5-4.8).  Canonical JSON hashing is
modelled by a deterministic serialization `encodeEntry` fed to an abstract
hash oracle `hash : String → String`; deterministic Ed25519 signing (spec
section 5: deterministic signatures) is modelled by an abstract oracle
`sign : key → message → signature`, and a proof verifies exactly when its
`proofValue` equals `sign` of the signer key and canonical message.  The
SCID substitution "replace every occurrence of the placeholder" is
structural: the places the SCID occurs (the document id and
`parameters.scid`) are explicit fields. -/

/-- Modelled from the spec: a witness and its voting weight
(`WitnessWeight` in the webvh module, spec section 3). -/
structure WitnessWeight where
  id : String
  weight : Nat
deriving DecidableEq, Repr

/-- Modelled from the spec: witness configuration (`Witness` in the webvh
module, spec section 3). -/
structure Witness where
  threshold : Nat
  witnesses : List WitnessWeight
deriving DecidableEq, Repr

/-- Modelled from the spec: the DID document state carried in a log entry,
reduced to the fields the log engine inspects: the SCID and domain
components of its `id` (`did:webvh:<scid>:<domain>`) and an opaque rest. -/
structure DocumentVh where
  scid : String
  domain : String
  content : String
deriving DecidableEq, Repr, Inhabited

/-- Modelled from the spec: log entry `parameters` (spec section 3). -/
structure Parameters where
  method : String
  scid : String
  updateKeys : List String
  nextKeyHashes : List String
  portable : Bool
  witness : Option Witness
  ttl : Nat
  deactivated : Bool
deriving DecidableEq, Repr, Inhabited

/-- Modelled from the spec: a Data Integrity proof, reduced to the signer
reference and the signature value (spec section 4.6). -/
structure Proof where
  verificationMethod : String
  proofValue : String
deriving DecidableEq, Repr

/-- Modelled from the spec: one log entry (spec section 3); `versionId`
"n-hash" is kept as the pair `versionNumber`, `versionHash`. -/
structure LogEntry where
  versionNumber : Nat
  versionHash : String
  versionTime : Nat
  parameters : Parameters
  state : DocumentVh
  proof : List Proof
deriving DecidableEq, Repr, Inhabited

/-- Modelled from the spec: witness proofs carried alongside the log,
indexed by versionId (`WitnessEntry` in the webvh module). -/
structure WitnessEntry where
  versionNumber : Nat
  versionHash : String
  proof : List Proof
deriving DecidableEq, Repr

/-- Modelled from the spec: the version string of the webvh protocol
(`parameters.method`). -/
def METHOD_VERSION : String := "did:webvh:0.5"

/-- Modelled from the spec: the literal SCID placeholder token. -/
def SCID_PLACEHOLDER : String := "{SCID}"

/-- Deterministic serialization of a string list. -/
def encodeList (l : List String) : String :=
  l.foldr (fun s acc => s ++ ";" ++ acc) ""

/-- Deterministic serialization of the witness configuration. -/
def encodeWitnessCfg : Option Witness → String
  | none => "-"
  | some w =>
    toString w.threshold ++ "?"
      ++ encodeList (w.witnesses.map fun ww => ww.id ++ "@" ++ toString ww.weight)

/-- Deterministic serialization of entry parameters. -/
def encodeParams (p : Parameters) : String :=
  p.method ++ "|" ++ p.scid ++ "|" ++ encodeList p.updateKeys ++ "|"
    ++ encodeList p.nextKeyHashes ++ "|" ++ (if p.portable then "T" else "F")
    ++ "|" ++ encodeWitnessCfg p.witness ++ "|" ++ toString p.ttl ++ "|"
    ++ (if p.deactivated then "T" else "F")

/-- Deterministic serialization of the document state. -/
def encodeDoc (d : DocumentVh) : String :=
  "did:webvh:" ++ d.scid ++ ":" ++ d.domain ++ "|" ++ d.content

/-- Modelled from the spec: the canonical form of an entry with the proof
elided (spec section 4.1: JCS canonicalization; determinism is the property
the engine relies on). -/
def encodeEntry (e : LogEntry) : String :=
  toString e.versionNumber ++ "|" ++ toString e.versionTime ++ "|"
    ++ encodeParams e.parameters ++ "|" ++ encodeDoc e.state

/-- Modelled from the spec: `entryHash` = hash of the canonical
entry-without-proof (spec sections 3 and 4.1). -/
def entryHash (hash : String → String) (e : LogEntry) : String :=
  hash (encodeEntry e)

/-- Modelled from the spec: a key's hash commitment is the multihash of its
multibase string (spec section 4.2). -/
def keyHash (hash : String → String) (k : String) : String := hash k

/-- Modelled from the spec: the signed message of a data-integrity proof over
an entry, combining the proof configuration (its verification method) and
the canonical entry (spec section 4.6). -/
def proofMsg (e : LogEntry) (vm : String) : String :=
  vm ++ "#" ++ encodeEntry e

/-- Modelled from the spec: a proof verifies when its value is the signature
of the proof message under the signer key named by `verificationMethod`
(deterministic signatures, spec sections 4.6 and 5). -/
def validProof (sign : String → String → String) (e : LogEntry) (p : Proof) : Prop :=
  p.proofValue = sign p.verificationMethod (proofMsg e p.verificationMethod)

instance (sign : String → String → String) (e : LogEntry) (p : Proof) :
    Decidable (validProof sign e p) := by
  unfold validProof; infer_instance

/-- Modelled from the spec: the message a witness signs over an entry
(spec section 3: witness proofs are produced over that entry). -/
def witnessMsg (e : LogEntry) : String := "witness#" ++ encodeEntry e

/-- Modelled from the spec: `Create` (spec sections 4.5 and 4.7): build the
genesis entry with the SCID placeholder, derive the SCID as the hash of that
entry, substitute it, assign `versionId = 1-<hash>` and sign with a signer
whose key appears in `updateKeys`. -/
def create (hash : String → String) (sign : String → String → String)
    (doc : DocumentVh) (updateKeys nextKeys : List String)
    (witness : Option Witness) (portable : Bool) (ttl time : Nat)
    (signerKey : String) : Option (List LogEntry) :=
  if updateKeys = [] then none
  else if signerKey ∈ updateKeys then
    let params0 : Parameters :=
      { method := METHOD_VERSION, scid := SCID_PLACEHOLDER,
        updateKeys := updateKeys, nextKeyHashes := nextKeys.map (keyHash hash),
        portable := portable, witness := witness, ttl := ttl,
        deactivated := false }
    let e0 : LogEntry :=
      { versionNumber := 1, versionHash := "", versionTime := time,
        parameters := params0, state := { doc with scid := SCID_PLACEHOLDER },
        proof := [] }
    let scid := entryHash hash e0
    let e1 : LogEntry :=
      { e0 with parameters := { params0 with scid := scid },
                state := { doc with scid := scid } }
    let e2 := { e1 with versionHash := entryHash hash e1 }
    some [{ e2 with proof :=
      [{ verificationMethod := signerKey,
         proofValue := sign signerKey (proofMsg e2 signerKey) }] }]
  else none

/-- Modelled from the spec: construction of a non-genesis entry: next version
number, fresh entry hash, a proof by `signerKey` (spec section 4.7). -/
def newEntry (hash : String → String) (sign : String → String → String)
    (prev : LogEntry) (doc : DocumentVh) (params : Parameters)
    (time : Nat) (signerKey : String) : LogEntry :=
  let e1 : LogEntry :=
    { versionNumber := prev.versionNumber + 1, versionHash := "",
      versionTime := time, parameters := params, state := doc, proof := [] }
  let e2 := { e1 with versionHash := entryHash hash e1 }
  { e2 with proof :=
    [{ verificationMethod := signerKey,
       proofValue := sign signerKey (proofMsg e2 signerKey) }] }

/-- Modelled from the spec: `Update` (spec section 4.7): the signer key must
be in the last entry's `updateKeys`, the new `updateKeys` must realize the
previous `nextKeyHashes` commitments when present, `versionTime` must be
strictly later, non-portable logs keep their domain, and the SCID must
match.  Carried-forward parameters keep the previous witness configuration,
portability and ttl. -/
def update (hash : String → String) (sign : String → String → String)
    (log : List LogEntry) (doc : DocumentVh) (updateKeys nextKeys : List String)
    (time : Nat) (signerKey : String) : Option (List LogEntry) :=
  match log.getLast? with
  | none => none
  | some prev =>
    if signerKey ∈ prev.parameters.updateKeys ∧
        (prev.parameters.nextKeyHashes = [] ∨
          updateKeys.map (keyHash hash) = prev.parameters.nextKeyHashes) ∧
        prev.versionTime < time ∧
        (prev.parameters.portable = true ∨ doc.domain = prev.state.domain) ∧
        doc.scid = prev.parameters.scid then
      let params : Parameters :=
        { method := METHOD_VERSION, scid := prev.parameters.scid,
          updateKeys := updateKeys,
          nextKeyHashes := nextKeys.map (keyHash hash),
          portable := prev.parameters.portable,
          witness := prev.parameters.witness,
          ttl := prev.parameters.ttl, deactivated := false }
      some (log ++ [newEntry hash sign prev doc params time signerKey])
    else none

/-- Modelled from the spec: `Deactivate` (spec section 4.7): when the last
entry still commits `nextKeyHashes`, first emit a nullify entry rotating to
the committed keys with empty `nextKeyHashes`, then the terminal entry with
`deactivated = true` and empty `updateKeys`. -/
def deactivate (hash : String → String) (sign : String → String → String)
    (log : List LogEntry) (updateKeys : List String) (time1 time2 : Nat)
    (signer1 signer2 : String) : Option (List LogEntry) :=
  match log.getLast? with
  | none => none
  | some prev =>
    if prev.parameters.nextKeyHashes = [] then
      if signer2 ∈ prev.parameters.updateKeys ∧ prev.versionTime < time2 then
        let params : Parameters :=
          { method := METHOD_VERSION, scid := prev.parameters.scid,
            updateKeys := [], nextKeyHashes := [],
            portable := prev.parameters.portable,
            witness := prev.parameters.witness,
            ttl := prev.parameters.ttl, deactivated := true }
        some (log ++ [newEntry hash sign prev prev.state params time2 signer2])
      else none
    else
      if signer1 ∈ prev.parameters.updateKeys ∧
          updateKeys.map (keyHash hash) = prev.parameters.nextKeyHashes ∧
          prev.versionTime < time1 ∧ time1 < time2 ∧ signer2 ∈ updateKeys then
        let paramsN : Parameters :=
          { method := METHOD_VERSION, scid := prev.parameters.scid,
            updateKeys := updateKeys, nextKeyHashes := [],
            portable := prev.parameters.portable,
            witness := prev.parameters.witness,
            ttl := prev.parameters.ttl, deactivated := false }
        let nEntry := newEntry hash sign prev prev.state paramsN time1 signer1
        let paramsT : Parameters :=
          { paramsN with updateKeys := [], deactivated := true }
        some (log ++ [nEntry,
          newEntry hash sign nEntry nEntry.state paramsT time2 signer2])
      else none

/-- Modelled from the spec: recompute the genesis SCID by putting the
placeholder back everywhere the SCID occurs and hashing (spec section 4.8
step 1). -/
def scidRecompute (hash : String → String) (g : LogEntry) : String :=
  entryHash hash
    { g with parameters := { g.parameters with scid := SCID_PLACEHOLDER },
             state := { g.state with scid := SCID_PLACEHOLDER } }

/-- Modelled from the spec: an entry carries at least one proof, and every
proof verifies with a key drawn from `keys` (spec section 4.8 step 3). -/
def proofsOk (sign : String → String → String) (keys : List String)
    (e : LogEntry) : Prop :=
  e.proof ≠ [] ∧ ∀ p ∈ e.proof, validProof sign e p ∧ p.verificationMethod ∈ keys

instance (sign : String → String → String) (keys : List String) (e : LogEntry) :
    Decidable (proofsOk sign keys e) := by
  unfold proofsOk; infer_instance

/-- Modelled from the spec: verification of the genesis entry during replay:
version number 1, SCID recomputation, entry hash, self-keyed proofs and
method compatibility (spec section 4.8 steps 1-3 and 5). -/
def genesisCheck (hash : String → String) (sign : String → String → String)
    (g : LogEntry) : Except Err Unit :=
  if g.versionNumber ≠ 1 then .error .chainBroken
  else if g.parameters.scid ≠ scidRecompute hash g then .error .scidMismatch
  else if g.versionHash ≠ entryHash hash g then .error .chainBroken
  else if proofsOk sign g.parameters.updateKeys g then
    if g.parameters.method ≠ METHOD_VERSION then .error .chainBroken
    else .ok ()
  else .error .proofVerification

/-- Modelled from the spec: verification of a non-genesis entry against its
predecessor during replay: version numbering, entry hash, proofs keyed by
the previous `updateKeys`, pre-rotation, time monotonicity, portability,
SCID and method compatibility (spec section 4.8 steps 2-5). -/
def verifyEntry (hash : String → String) (sign : String → String → String)
    (prev e : LogEntry) : Except Err Unit :=
  if e.versionNumber ≠ prev.versionNumber + 1 then .error .chainBroken
  else if e.versionHash ≠ entryHash hash e then .error .chainBroken
  else if proofsOk sign prev.parameters.updateKeys e then
    if prev.parameters.nextKeyHashes ≠ [] ∧
        e.parameters.updateKeys.map (keyHash hash)
          ≠ prev.parameters.nextKeyHashes then
      .error .preRotationMismatch
    else if e.versionTime ≤ prev.versionTime then .error .chainBroken
    else if prev.parameters.portable = false ∧
        e.state.domain ≠ prev.state.domain then
      .error .portabilityViolation
    else if e.parameters.scid ≠ prev.parameters.scid then .error .scidMismatch
    else if e.parameters.method ≠ METHOD_VERSION then .error .chainBroken
    else .ok ()
  else .error .proofVerification

/-- Modelled from the spec: locate the witness proofs for an entry by its
versionId (spec section 4.8 step 6). -/
def findWitnessEntry (wps : List WitnessEntry) (e : LogEntry) :
    Option WitnessEntry :=
  wps.find? fun we =>
    we.versionNumber == e.versionNumber && we.versionHash == e.versionHash

/-- Modelled from the spec: accumulated weight of configured witnesses that
contributed a valid proof over the entry (spec section 4.8 step 6). -/
def witnessWeight (sign : String → String → String) (e : LogEntry)
    (w : Witness) (wps : List WitnessEntry) : Nat :=
  match findWitnessEntry wps e with
  | none => 0
  | some we =>
    (w.witnesses.filter fun ww =>
      we.proof.any fun p =>
        p.verificationMethod == ww.id &&
          p.proofValue == sign ww.id (witnessMsg e)).foldl
      (fun acc ww => acc + ww.weight) 0

/-- Modelled from the spec: the witness threshold check, skipped when the
caller disables witness checking (spec section 4.8 step 6). -/
def witnessCheck (sign : String → String → String) (skip : Bool)
    (wps : List WitnessEntry) (e : LogEntry) : Except Err Unit :=
  if skip then .ok ()
  else
    match e.parameters.witness with
    | none => .ok ()
    | some w =>
      if w.threshold ≤ witnessWeight sign e w wps then .ok ()
      else .error .witnessThreshold

/-- Modelled from the spec: the document metadata returned by resolution
(spec section 4.8 step 8). -/
structure DocMeta where
  versionNumber : Nat
  versionHash : String
  versionTime : Nat
  deactivated : Bool
deriving DecidableEq, Repr

/-- Metadata of the resolved (last) entry. -/
def mkMeta (e : LogEntry) : DocMeta :=
  { versionNumber := e.versionNumber, versionHash := e.versionHash,
    versionTime := e.versionTime, deactivated := e.parameters.deactivated }

/-- Modelled from the spec: replay of the log tail, verifying each entry
against its predecessor and its witness threshold, returning the last
entry (spec section 4.8 steps 2-7). -/
def resolveFrom (hash : String → String) (sign : String → String → String)
    (wps : List WitnessEntry) (skip : Bool) :
    LogEntry → List LogEntry → Except Err LogEntry
  | prev, [] => .ok prev
  | prev, e :: rest =>
    match verifyEntry hash sign prev e with
    | .error er => .error er
    | .ok _ =>
      match witnessCheck sign skip wps e with
      | .error er => .error er
      | .ok _ => resolveFrom hash sign wps skip e rest

/-- Modelled from the spec: `resolve_log` (spec section 4.8): verify the
genesis entry, replay the chain, apply witness thresholds, and return the
last entry's state with its metadata. -/
def resolve_log (hash : String → String) (sign : String → String → String)
    (log : List LogEntry) (wps : Option (List WitnessEntry)) (skip : Bool) :
    Except Err (DocumentVh × DocMeta) :=
  match log with
  | [] => .error .notFound
  | g :: rest =>
    match genesisCheck hash sign g with
    | .error er => .error er
    | .ok _ =>
      match witnessCheck sign skip (wps.getD []) g with
      | .error er => .error er
      | .ok _ =>
        match resolveFrom hash sign (wps.getD []) skip g rest with
        | .error er => .error er
        | .ok last => .ok (last.state, mkMeta last)

/-- Inputs of a `Create` operation. -/
structure CreateInput where
  doc : DocumentVh
  updateKeys : List String
  nextKeys : List String
  witness : Option Witness
  portable : Bool
  ttl : Nat
  time : Nat
  signerKey : String
deriving DecidableEq, Repr

/-- Inputs of an `Update` operation. -/
structure UpdateInput where
  doc : DocumentVh
  updateKeys : List String
  nextKeys : List String
  time : Nat
  signerKey : String
deriving DecidableEq, Repr

/-- Inputs of a `Deactivate` operation (two entries may be emitted, so two
times and two signers). -/
structure DeactivateInput where
  updateKeys : List String
  time1 : Nat
  time2 : Nat
  signer1 : String
  signer2 : String
deriving DecidableEq, Repr

/-- Applies a sequence of `Update` operations to a log. -/
def applyUpdates (hash : String → String) (sign : String → String → String)
    (log : List LogEntry) : List UpdateInput → Option (List LogEntry)
  | [] => some log
  | u :: us =>
    match update hash sign log u.doc u.updateKeys u.nextKeys u.time u.signerKey with
    | none => none
    | some log2 => applyUpdates hash sign log2 us

/-- A log produced by `Create`, a sequence of `Update`s, and an optional
`Deactivate`. -/
def buildLog (hash : String → String) (sign : String → String → String)
    (c : CreateInput) (us : List UpdateInput) (d : Option DeactivateInput) :
    Option (List LogEntry) :=
  match create hash sign c.doc c.updateKeys c.nextKeys c.witness c.portable
      c.ttl c.time c.signerKey with
  | none => none
  | some log1 =>
    match applyUpdates hash sign log1 us with
    | none => none
    | some log2 =>
      match d with
      | none => some log2
      | some di =>
        deactivate hash sign log2 di.updateKeys di.time1 di.time2
          di.signer1 di.signer2

/-- Every entry of the tail verifies against its predecessor. -/
def chainGood (hash : String → String) (sign : String → String → String) :
    LogEntry → List LogEntry → Prop
  | _, [] => True
  | prev, e :: rest =>
    verifyEntry hash sign prev e = .ok () ∧ chainGood hash sign e rest

/-- A non-empty log whose genesis entry checks out and whose tail chains. -/
def goodLog (hash : String → String) (sign : String → String → String)
    (log : List LogEntry) : Prop :=
  match log with
  | [] => False
  | g :: rest => genesisCheck hash sign g = .ok () ∧ chainGood hash sign g rest

/-! Concrete example inputs used to instantiate the universal theorems. -/

/-- A degenerate but admissible hash oracle. -/
def exHash : String → String := fun _ => "h"

/-- A degenerate but admissible deterministic signing oracle. -/
def exSign : String → String → String := fun _ _ => "sig"

/-- Create input: one update key, no commitments, no witnesses. -/
def exC1 : CreateInput := ⟨⟨"", "example.com", "d"⟩, ["k1"], [], none, false, 60, 1, "k1"⟩

/-- Create input committing a next key. -/
def exC2 : CreateInput := ⟨⟨"", "example.com", "d"⟩, ["k1"], ["k2"], none, false, 60, 1, "k1"⟩

/-- Update input rotating to the committed key. -/
def exU2 : UpdateInput := ⟨⟨"h", "example.com", "d2"⟩, ["k2"], ["k3"], 2, "k1"⟩

/-- Deactivate input straight after create. -/
def exD3 : DeactivateInput := ⟨["k2"], 2, 3, "k1", "k2"⟩

/-- Deactivate input after create and update. -/
def exD4 : DeactivateInput := ⟨["k3"], 3, 4, "k2", "k3"⟩

/-- Create input with the witness configuration of the C3 scenario. -/
def exC3 : CreateInput :=
  ⟨⟨"", "example.com", "d"⟩, ["k1"], [],
    some ⟨60, [⟨"w1", 50⟩, ⟨"w2", 40⟩]⟩, false, 60, 1, "k1"⟩

/-- The genesis entry created from `exC3`. -/
def exG3 : LogEntry :=
  ((create exHash exSign exC3.doc exC3.updateKeys exC3.nextKeys exC3.witness
    exC3.portable exC3.ttl exC3.time exC3.signerKey).getD []).headD default

end Credibil

namespace Credibil

/-! ## Theorems -/

theorem method_display_fromStr (m : Method) : Method.fromStr m.display = .ok m := by
  cases m <;> simp [Method.display, Method.fromStr]

/-- C10: `Method` supports exactly `key`, `web`, `webvh`: `from_str` inverts
`Display` for every method value, and every other string yields
`MethodNotSupported`. -/
theorem C10_method_roundtrip_and_error :
    (∀ m : Method, Method.fromStr m.display = .ok m) ∧
    (∀ s : String, s ≠ "key" → s ≠ "web" → s ≠ "webvh" →
      Method.fromStr s = .error (.methodNotSupported s)) := by
  constructor
  · exact method_display_fromStr
  · intro s h1 h2 h3
    simp [Method.fromStr, h1, h2, h3]

/-- Witness for C10 at concrete inputs. -/
theorem C10_method_roundtrip_and_error_witness :
    Method.fromStr (Method.webVh.display) = .ok .webVh ∧
    Method.fromStr "jwk" = .error (.methodNotSupported "jwk") :=
  ⟨C10_method_roundtrip_and_error.1 .webVh,
   C10_method_roundtrip_and_error.2 "jwk" (by decide) (by decide) (by decide)⟩

theorem mapLookup_mapInsert_self (m : List (String × String)) (k v : String) :
    mapLookup (mapInsert m k v) k = some v := by
  unfold mapInsert
  split
  case isTrue h =>
    induction m with
    | nil => simp at h
    | cons a t ih =>
      by_cases hk : a.1 = k
      · simp [mapLookup, List.find?, hk]
      · have hk' : (a.1 == k) = false := beq_false_of_ne hk
        simp only [List.any_cons, hk', Bool.false_or] at h
        simpa [mapLookup, List.find?, hk'] using ih h
  case isFalse h =>
    simp [mapLookup, List.find?]

theorem mapLookup_cons_of_pos (a : String × String) (t : List (String × String))
    (k : String) (h : (a.1 == k) = true) : mapLookup (a :: t) k = some a.2 := by
  simp [mapLookup, List.find?, h]

theorem mapLookup_cons_of_neg (a : String × String) (t : List (String × String))
    (k : String) (h : (a.1 == k) = false) : mapLookup (a :: t) k = mapLookup t k := by
  simp [mapLookup, List.find?, h]

theorem mapLookup_map_overwrite_ne (m : List (String × String)) (j k v : String)
    (hjk : j ≠ k) :
    mapLookup (m.map (fun p => if p.1 == j then (j, v) else p)) k = mapLookup m k := by
  induction m with
  | nil => rfl
  | cons a t ih =>
    rw [List.map_cons]
    by_cases hj : (a.1 == j) = true
    · have haj : a.1 = j := by simpa using hj
      rw [if_pos hj, mapLookup_cons_of_neg (j, v) _ k (beq_false_of_ne hjk),
        mapLookup_cons_of_neg a t k (beq_false_of_ne (haj ▸ hjk))]
      exact ih
    · rw [if_neg hj]
      by_cases hk : (a.1 == k) = true
      · rw [mapLookup_cons_of_pos _ _ k hk, mapLookup_cons_of_pos a t k hk]
      · rw [mapLookup_cons_of_neg _ _ k (by simpa using hk),
          mapLookup_cons_of_neg a t k (by simpa using hk)]
        exact ih

theorem mapLookup_mapInsert_ne (m : List (String × String)) (j k v : String)
    (hjk : j ≠ k) : mapLookup (mapInsert m j v) k = mapLookup m k := by
  unfold mapInsert
  split
  · exact mapLookup_map_overwrite_ne m j k v hjk
  · exact mapLookup_cons_of_neg (j, v) m k (beq_false_of_ne hjk)

theorem mapLookup_foldl_insert_not_mem (l : List (String × String))
    (m : List (String × String)) (k : String) (h : k ∉ l.map Prod.fst) :
    mapLookup (l.foldl (fun m p => mapInsert m p.1 p.2) m) k = mapLookup m k := by
  induction l generalizing m with
  | nil => rfl
  | cons a t ih =>
    simp only [List.map_cons, List.mem_cons] at h
    push_neg at h
    rw [List.foldl_cons, ih _ h.2, mapLookup_mapInsert_ne _ _ _ _ (Ne.symm h.1)]

theorem mapLookup_foldl_insert (l : List (String × String))
    (m : List (String × String)) (k v : String)
    (hnd : (l.map Prod.fst).Nodup) (hfind : mapLookup l k = some v) :
    mapLookup (l.foldl (fun m p => mapInsert m p.1 p.2) m) k = some v := by
  induction l generalizing m with
  | nil => simp [mapLookup] at hfind
  | cons a t ih =>
    simp only [List.map_cons, List.nodup_cons] at hnd
    cases hk : a.1 == k with
    | true =>
      have hak : a.1 = k := by simpa using hk
      have hv : a.2 = v := by simpa [mapLookup, List.find?, hk] using hfind
      have hkt : k ∉ t.map Prod.fst := hak ▸ hnd.1
      rw [List.foldl_cons, mapLookup_foldl_insert_not_mem _ _ _ hkt, hak, hv,
        mapLookup_mapInsert_self]
    | false =>
      have hfind' : mapLookup t k = some v := by
        simpa [mapLookup, List.find?, hk] using hfind
      rw [List.foldl_cons]
      exact ih _ hnd.2 hfind'

theorem mapLookup_map_gen (l : List (String × String)) (g : String → String)
    (k : String) (h : k ∈ l.map Prod.fst) :
    mapLookup (l.map (fun p => (p.1, g p.1))) k = some (g k) := by
  induction l with
  | nil => simp at h
  | cons a t ih =>
    cases hk : a.1 == k with
    | true =>
      have hak : a.1 = k := by simpa using hk
      simp [mapLookup, List.find?, hk, hak]
    | false =>
      have : k ∈ t.map Prod.fst := by
        simp only [List.map_cons, List.mem_cons] at h
        rcases h with h | h
        · exact absurd h.symm (by simpa using hk)
        · exact h
      simpa [mapLookup, List.find?, hk] using ih this

/-- C9: `Keyring::rotate` implements "keys ← next_keys; regenerate
next_keys": every id pending in `next_keys` has its current key overwritten
with the old next key (even when a current key already exists), and
`next_keys` is refilled with a freshly generated key for every id in the
resulting `keys`. -/
theorem C9_keyring_rotate (gen : String → String) (kr : Keyring)
    (hnd : (kr.next_keys.map Prod.fst).Nodup) :
    (∀ id nk, mapLookup kr.next_keys id = some nk →
      mapLookup (kr.rotate gen).keys id = some nk) ∧
    (∀ id, id ∈ (kr.rotate gen).keys.map Prod.fst →
      mapLookup (kr.rotate gen).next_keys id = some (gen id)) := by
  constructor
  · intro id nk hfind
    exact mapLookup_foldl_insert _ _ _ _ hnd hfind
  · intro id hmem
    exact mapLookup_map_gen _ _ _ hmem

theorem stripPrefixL_append (pre rest : List Char) :
    stripPrefixL pre (pre ++ rest) = some rest := by
  induction pre with
  | nil => rfl
  | cons p ps ih => simp [stripPrefixL, ih]

theorem stripPrefixL_sound (pre : List Char) :
    ∀ did rest, stripPrefixL pre did = some rest → did = pre ++ rest := by
  induction pre with
  | nil => intro did rest h; simpa [stripPrefixL] using h
  | cons p ps ih =>
    intro did rest h
    cases did with
    | nil => simp [stripPrefixL] at h
    | cons c cs =>
      rw [stripPrefixL] at h
      split at h
      case isTrue hc => simpa [hc] using ih cs rest h
      case isFalse hc => exact absurd h (by simp)

theorem matchDidL_append (pre ident : List Char) (h1 : ident ≠ [])
    (h2 : ident.all allowedChar = true) :
    matchDidL pre (pre ++ ident) = some ident := by
  rw [matchDidL, stripPrefixL_append]
  simp [h1, h2]

theorem matchDidL_eq_none (pre did : List Char)
    (h : ∀ ident, did = pre ++ ident → ident = [] ∨ ¬ident.all allowedChar = true) :
    matchDidL pre did = none := by
  rw [matchDidL]
  cases hs : stripPrefixL pre did with
  | none => rfl
  | some r =>
    have hd : did = pre ++ r := stripPrefixL_sound pre did r hs
    rcases h r hd with hr | hr <;> simp [hr]

theorem splitFirstColon_append (scid ident : List Char) (h : ':' ∉ scid) :
    splitFirstColon (scid ++ ':' :: ident) = some (scid, ident) := by
  induction scid with
  | nil => simp [splitFirstColon]
  | cons c cs ih =>
    simp only [List.mem_cons] at h
    push_neg at h
    rw [List.cons_append, splitFirstColon, if_neg (Ne.symm h.1),
      ih (fun hm => h.2 hm)]
    rfl

theorem splitFirstColon_eq_none (cs : List Char) (h : ':' ∉ cs) :
    splitFirstColon cs = none := by
  induction cs with
  | nil => rfl
  | cons c t ih =>
    simp only [List.mem_cons] at h
    push_neg at h
    rw [splitFirstColon, if_neg (Ne.symm h.1), ih (fun hm => h.2 hm)]
    rfl

theorem decodePort_append_wellKnown (xs : List Char) :
    decodePort (xs ++ "/.well-known".toList)
      = decodePort xs ++ "/.well-known".toList := by
  induction xs using decodePort.induct with
  | case1 => decide
  | case2 c =>
    show decodePort (c :: "/.well-known".toList) = c :: "/.well-known".toList
    rw [show ("/.well-known".toList : List Char)
        = '/' :: '.' :: "well-known".toList from rfl]
    rw [decodePort, if_neg (by simp)]
    exact congrArg (fun t => c :: t) (by decide)
  | case3 c1 c2 =>
    show decodePort (c1 :: c2 :: "/.well-known".toList)
      = c1 :: c2 :: "/.well-known".toList
    rw [show ("/.well-known".toList : List Char)
        = '/' :: '.' :: "well-known".toList from rfl]
    rw [decodePort, if_neg (by simp), decodePort, if_neg (by simp)]
    exact congrArg (fun t => c1 :: c2 :: t) (by decide)
  | case4 c1 c2 c3 rest hcond ih =>
    obtain ⟨e1, e2, e3⟩ := hcond
    subst e1; subst e2; subst e3
    show decodePort ('%' :: '3' :: 'A' :: (rest ++ "/.well-known".toList)) = _
    rw [decodePort, if_pos (by simp), ih, decodePort, if_pos (by simp)]
    rfl
  | case5 c1 c2 c3 rest hcond ih =>
    show decodePort (c1 :: c2 :: c3 :: (rest ++ "/.well-known".toList)) = _
    rw [decodePort, if_neg hcond]
    rw [show c2 :: c3 :: (rest ++ "/.well-known".toList)
        = (c2 :: c3 :: rest) ++ "/.well-known".toList from rfl]
    rw [ih, decodePort, if_neg hcond]
    rfl

/-- C5: `DidWeb::url` maps `did:web:<identifier>` (identifier in the allowed
character class) to `https://` + the identifier with colons as slashes and
`%3A` decoded, with `/.well-known` inserted exactly when the identifier has
no unescaped colon, ending in `/did.json`; in particular the spec's concrete
example. -/
theorem C5_web_url (identifier : List Char) (h1 : identifier ≠ [])
    (h2 : identifier.all allowedChar = true) :
    didWebUrl ("did:web:".toList ++ identifier) = .ok (webUrlSpec identifier) ∧
    DidWeb.url "did:web:domain.with-hyphens.computer"
      = .ok "https://domain.with-hyphens.computer/.well-known/did.json" := by
  refine ⟨?_, by rfl⟩
  rw [didWebUrl, matchDidL_append _ _ h1 h2]
  by_cases hc : ':' ∈ identifier
  · simp [webUrlSpec, hc, List.append_assoc]
  · simp [webUrlSpec, hc, List.append_assoc]

/-- Witness for C5 at the identifier "example.com". -/
theorem C5_web_url_witness :
    didWebUrl ("did:web:".toList ++ "example.com".toList)
      = .ok (webUrlSpec "example.com".toList) ∧
    DidWeb.url "did:web:domain.with-hyphens.computer"
      = .ok "https://domain.with-hyphens.computer/.well-known/did.json" :=
  C5_web_url "example.com".toList (by decide) (by decide)

/-- C4: `DidWebVh::url` strips the SCID and maps the remaining identifier the
same way as `did:web` but ending in `/did.jsonl`; in particular the spec's
two concrete examples (path and percent-encoded port). -/
theorem C4_webvh_url (scid identifier : List Char)
    (hs1 : scid ≠ []) (hs2 : scid.all allowedChar = true) (hs3 : ':' ∉ scid)
    (hi1 : identifier ≠ []) (hi2 : identifier.all allowedChar = true) :
    didWebVhUrl ("did:webvh:".toList ++ (scid ++ ':' :: identifier))
      = .ok (webvhUrlSpec identifier) ∧
    DidWebVh.url "did:webvh:z6Mk3vz:domain.with-hyphens.computer:dids:issuer"
      = .ok "https://domain.with-hyphens.computer/dids/issuer/did.jsonl" ∧
    DidWebVh.url "did:webvh:z6Mk3vz:domain.with-hyphens.computer%3A8080"
      = .ok "https://domain.with-hyphens.computer:8080/.well-known/did.jsonl" := by
  refine ⟨?_, by rfl, by rfl⟩
  have hall : (scid ++ ':' :: identifier).all allowedChar = true := by
    simp only [List.all_append, List.all_cons, hs2, hi2, Bool.and_true]
    simp [allowedChar]
  have hne : scid ++ ':' :: identifier ≠ [] := by simp
  rw [didWebVhUrl, matchDidL_append _ _ hne hall]
  dsimp only
  rw [splitFirstColon_append _ _ hs3]
  by_cases hc : ':' ∈ identifier
  · simp [webvhUrlSpec, hc, List.append_assoc]
  · have hd := decodePort_append_wellKnown (replaceColons identifier)
    simp only [webvhUrlSpec, hc, if_neg] at hd ⊢
    simp at hd ⊢
    rw [hd]
    simp [List.append_assoc]

/-- Witness for C4 at scid "z6Mk3vz" and identifier "example.com". -/
theorem C4_webvh_url_witness :
    didWebVhUrl ("did:webvh:".toList ++ ("z6Mk3vz".toList ++ ':' :: "example.com".toList))
      = .ok (webvhUrlSpec "example.com".toList) ∧
    DidWebVh.url "did:webvh:z6Mk3vz:domain.with-hyphens.computer:dids:issuer"
      = .ok "https://domain.with-hyphens.computer/dids/issuer/did.jsonl" ∧
    DidWebVh.url "did:webvh:z6Mk3vz:domain.with-hyphens.computer%3A8080"
      = .ok "https://domain.with-hyphens.computer:8080/.well-known/did.jsonl" :=
  C4_webvh_url "z6Mk3vz".toList "example.com".toList
    (by decide) (by decide) (by decide) (by decide) (by decide)

/-- C6: inputs with a wrong method prefix or an identifier outside the
character class `[a-zA-Z0-9.\-:%]+` fail both URL transformations with
`InvalidDid`, and `did:webvh` identifiers lacking a colon after the SCID
fail with `InvalidDid` as well. -/
theorem C6_url_invalid :
    (∀ did : List Char,
      (∀ ident, did = "did:web:".toList ++ ident →
        ident = [] ∨ ¬ident.all allowedChar = true) →
      didWebUrl did = .error (.invalidDid "DID is not a valid did:web")) ∧
    (∀ did : List Char,
      (∀ ident, did = "did:webvh:".toList ++ ident →
        ident = [] ∨ ¬ident.all allowedChar = true) →
      didWebVhUrl did = .error (.invalidDid "DID is not a valid did:webvh")) ∧
    (∀ ident : List Char, ident ≠ [] → ident.all allowedChar = true →
      ':' ∉ ident →
      didWebVhUrl ("did:webvh:".toList ++ ident)
        = .error (.invalidDid "DID is not a valid did:webvh - no SCID")) := by
  refine ⟨?_, ?_, ?_⟩
  · intro did h
    rw [didWebUrl, matchDidL_eq_none _ _ h]
  · intro did h
    rw [didWebVhUrl, matchDidL_eq_none _ _ h]
  · intro ident h1 h2 h3
    rw [didWebVhUrl, matchDidL_append _ _ h1 h2]
    dsimp only
    rw [splitFirstColon_eq_none _ h3]

/-- Witness for C6: an identifier with a bad character under each method, and
a `did:webvh` without an SCID separator. -/
theorem C6_url_invalid_witness :
    didWebUrl "did:web:ex!ample".toList
      = .error (.invalidDid "DID is not a valid did:web") ∧
    didWebVhUrl "did:webvh:ex!ample".toList
      = .error (.invalidDid "DID is not a valid did:webvh") ∧
    didWebVhUrl "did:webvh:nocolon".toList
      = .error (.invalidDid "DID is not a valid did:webvh - no SCID") := by
  refine ⟨C6_url_invalid.1 _ ?_, C6_url_invalid.2.1 _ ?_,
    C6_url_invalid.2.2 "nocolon".toList (by decide) (by decide) (by decide)⟩
  · intro ident heq
    right
    have heq2 : "did:web:".toList ++ "ex!ample".toList
        = "did:web:".toList ++ ident := heq
    rw [← List.append_cancel_left heq2]
    decide
  · intro ident heq
    right
    have heq2 : "did:webvh:".toList ++ "ex!ample".toList
        = "did:webvh:".toList ++ ident := heq
    rw [← List.append_cancel_left heq2]
    decide

/-- C7 (code evidence): `DidWeb::resolve` strips the full 8-byte `did:web:`
prefix when emitting `methodSpecificId`, but `DidWebVh::resolve` also
slices `did[8..]` although its prefix `did:webvh:` is 10 bytes, leaving
`h:` behind: at `did:webvh:z6Mk3vz:example.com` the emitted
`methodSpecificId` is "h:z6Mk3vz:example.com", not the method-specific id
"z6Mk3vz:example.com" that removing the full prefix would give. -/
theorem C7_method_specific_id_eval :
    (DidWeb.resolve "did:web:example.com" none
        (fun _ => (.ok () : Except String Unit))).map
      (fun r => r.metadata.did.methodSpecificId) = .ok "example.com" ∧
    (DidWebVh.resolve "did:webvh:z6Mk3vz:example.com" none
        (fun _ => (.ok () : Except String Unit))).map
      (fun r => r.metadata.did.methodSpecificId) = .ok "h:z6Mk3vz:example.com" ∧
    "h:z6Mk3vz:example.com" ≠ "z6Mk3vz:example.com" :=
  ⟨by rfl, by rfl, by decide⟩

/-- C8: when `accept` is present and differs from `JsonL`,
`DidWebVh::resolve` fails with `RepresentationNotSupported` for every
resolver whatsoever (the resolver capability is never consulted: the result
does not depend on it); when `accept` is absent or equals `JsonL`,
resolution proceeds to the fetch and succeeds whenever the resolver does. -/
theorem C8_webvh_accept {Doc : Type}
    (did url : String) (resolver : String → Except String Doc) :
    (∀ (opts : ResolveOptions) (ct : ContentType),
      DidWebVh.url did = .ok url → opts.accept = some ct →
      ct ≠ ContentType.jsonL →
      DidWebVh.resolve did (some opts) resolver
        = .error (.representationNotSupported "Content type must be text/json")) ∧
    (∀ (options : Option ResolveOptions) (doc : Doc),
      DidWebVh.url did = .ok url →
      (options = none ∨ options = some ⟨none⟩ ∨
        options = some ⟨some ContentType.jsonL⟩) →
      resolver url = .ok doc →
      ∃ r, DidWebVh.resolve did options resolver = .ok r ∧
        r.document = some doc) := by
  constructor
  · intro opts ct hurl hacc hct
    simp only [DidWebVh.resolve, hurl, hacc]
    rw [if_pos hct]
  · intro options doc hurl hopt hres
    rcases hopt with h | h | h <;> subst h <;>
      simp only [DidWebVh.resolve, DidWebVh.resolveFetch, hurl, hres,
        ne_eq, not_true_eq_false, if_neg, ite_false] <;>
      exact ⟨_, rfl, rfl⟩

/-- Witness for C8 at a concrete DID with a non-JSONL accept and with no
options. -/
theorem C8_webvh_accept_witness :
    DidWebVh.resolve "did:webvh:scid:example.com"
        (some ⟨some ContentType.didLdJson⟩)
        (fun _ => (.ok () : Except String Unit))
      = .error (.representationNotSupported "Content type must be text/json") ∧
    ∃ r, DidWebVh.resolve "did:webvh:scid:example.com" none
        (fun _ => (.ok () : Except String Unit)) = .ok r ∧
      r.document = some () :=
  ⟨(C8_webvh_accept "did:webvh:scid:example.com"
      "https://example.com/.well-known/did.jsonl"
      (fun _ => (.ok () : Except String Unit))).1
      ⟨some ContentType.didLdJson⟩ ContentType.didLdJson (by rfl) rfl (by decide),
   (C8_webvh_accept "did:webvh:scid:example.com"
      "https://example.com/.well-known/did.jsonl"
      (fun _ => (.ok () : Except String Unit))).2
      none () (by rfl) (Or.inl rfl) rfl⟩

theorem create_spec (hash : String → String) (sign : String → String → String)
    (doc : DocumentVh) (updateKeys nextKeys : List String)
    (witness : Option Witness) (portable : Bool) (ttl time : Nat)
    (signerKey : String) (log : List LogEntry)
    (h : create hash sign doc updateKeys nextKeys witness portable ttl time
      signerKey = some log) :
    ∃ g, log = [g] ∧ genesisCheck hash sign g = .ok () ∧
      g.parameters.witness = witness ∧ g.parameters.deactivated = false ∧
      g.parameters.nextKeyHashes = nextKeys.map (keyHash hash) := by
  unfold create at h
  split_ifs at h with h1 h2
  refine ⟨_, (Option.some.inj h).symm, ?_, rfl, rfl, rfl⟩
  simp [genesisCheck, scidRecompute, entryHash, encodeEntry, encodeParams,
    encodeDoc, proofsOk, validProof, proofMsg, METHOD_VERSION,
    SCID_PLACEHOLDER, h2]

theorem update_spec (hash : String → String) (sign : String → String → String)
    (log : List LogEntry) (doc : DocumentVh) (updateKeys nextKeys : List String)
    (time : Nat) (signerKey : String) (log2 : List LogEntry)
    (h : update hash sign log doc updateKeys nextKeys time signerKey
      = some log2) :
    ∃ prev e, log.getLast? = some prev ∧ log2 = log ++ [e] ∧
      verifyEntry hash sign prev e = .ok () ∧
      e.parameters.deactivated = false ∧
      e.parameters.nextKeyHashes = nextKeys.map (keyHash hash) := by
  unfold update at h
  cases hl : log.getLast? with
  | none => rw [hl] at h; exact absurd h (by simp)
  | some prev =>
    rw [hl] at h
    dsimp only at h
    split_ifs at h with hg
    obtain ⟨h1, h2, h3, h4, h5⟩ := hg
    refine ⟨prev, _, rfl, (Option.some.inj h).symm, ?_, rfl, rfl⟩
    have hpre : ¬(prev.parameters.nextKeyHashes ≠ [] ∧
        updateKeys.map (keyHash hash) ≠ prev.parameters.nextKeyHashes) := by
      rcases h2 with h2 | h2 <;> simp [h2]
    have htime : ¬(time ≤ prev.versionTime) := not_le.mpr h3
    have hport : ¬(prev.parameters.portable = false ∧
        doc.domain ≠ prev.state.domain) := by
      rcases h4 with h4 | h4 <;> simp [h4]
    simp [verifyEntry, newEntry, entryHash, encodeEntry, encodeParams,
      encodeDoc, proofsOk, validProof, proofMsg, METHOD_VERSION, h1, hpre,
      htime, hport, h5]

theorem deactivate_spec (hash : String → String) (sign : String → String → String)
    (log : List LogEntry) (updateKeys : List String) (time1 time2 : Nat)
    (signer1 signer2 : String) (log2 : List LogEntry)
    (h : deactivate hash sign log updateKeys time1 time2 signer1 signer2
      = some log2) :
    ∃ prev tail, log.getLast? = some prev ∧ log2 = log ++ tail ∧ tail ≠ [] ∧
      chainGood hash sign prev tail ∧
      ∃ dlast, tail.getLast? = some dlast ∧
        dlast.parameters.deactivated = true ∧
        dlast.parameters.updateKeys = [] := by
  unfold deactivate at h
  cases hl : log.getLast? with
  | none => rw [hl] at h; exact absurd h (by simp)
  | some prev =>
    rw [hl] at h
    dsimp only at h
    split_ifs at h with hnk hg hg2
    · -- no pending commitments: a single terminal entry
      obtain ⟨h1, h2⟩ := hg
      refine ⟨prev, _, rfl, (Option.some.inj h).symm, by simp, ?_, ?_⟩
      · refine ⟨?_, trivial⟩
        have htime : ¬(time2 ≤ prev.versionTime) := not_le.mpr h2
        simp [verifyEntry, newEntry, entryHash, encodeEntry, encodeParams,
          encodeDoc, proofsOk, validProof, proofMsg, METHOD_VERSION, h1,
          htime, hnk]
      · exact ⟨_, rfl, rfl, rfl⟩
    · -- nullify entry, then terminal entry
      obtain ⟨h1, h2, h3, h4, h5⟩ := hg2
      refine ⟨prev, _, rfl, (Option.some.inj h).symm, by simp, ?_, ?_⟩
      · refine ⟨?_, ?_, trivial⟩
        · have htime : ¬(time1 ≤ prev.versionTime) := not_le.mpr h3
          have hpre : ¬(prev.parameters.nextKeyHashes ≠ [] ∧
              updateKeys.map (keyHash hash) ≠ prev.parameters.nextKeyHashes) := by
            simp [h2]
          simp [verifyEntry, newEntry, entryHash, encodeEntry, encodeParams,
            encodeDoc, proofsOk, validProof, proofMsg, METHOD_VERSION, h1,
            htime, hpre]
        · have htime2 : ¬(time2 ≤ time1) := not_le.mpr h4
          simp [verifyEntry, newEntry, entryHash, encodeEntry, encodeParams,
            encodeDoc, proofsOk, validProof, proofMsg, METHOD_VERSION, h5,
            htime2]
      · exact ⟨_, rfl, rfl, rfl⟩

theorem chainGood_append (hash : String → String) (sign : String → String → String) :
    ∀ (rest : List LogEntry) (g prev : LogEntry) (tail : List LogEntry),
    chainGood hash sign g rest → (g :: rest).getLast? = some prev →
    chainGood hash sign prev tail → chainGood hash sign g (rest ++ tail) := by
  intro rest
  induction rest with
  | nil =>
    intro g prev tail _ hl ht
    have hgp : g = prev := by simpa using hl
    rw [List.nil_append]
    exact hgp ▸ ht
  | cons e rest2 ih =>
    intro g prev tail hc hl ht
    obtain ⟨hv, hc2⟩ := hc
    have hl2 : (e :: rest2).getLast? = some prev := by
      rwa [List.getLast?_cons_cons] at hl
    exact ⟨hv, ih e prev tail hc2 hl2 ht⟩

theorem goodLog_append (hash : String → String) (sign : String → String → String)
    (log : List LogEntry) (prev : LogEntry) (tail : List LogEntry)
    (hg : goodLog hash sign log) (hl : log.getLast? = some prev)
    (ht : chainGood hash sign prev tail) : goodLog hash sign (log ++ tail) := by
  cases log with
  | nil => exact absurd hg (by simp [goodLog])
  | cons g rest =>
    obtain ⟨hgen, hchain⟩ := hg
    exact ⟨hgen, chainGood_append hash sign rest g prev tail hchain hl ht⟩

theorem update_good (hash : String → String) (sign : String → String → String)
    (log : List LogEntry) (doc : DocumentVh) (updateKeys nextKeys : List String)
    (time : Nat) (signerKey : String) (log2 : List LogEntry)
    (hg : goodLog hash sign log)
    (h : update hash sign log doc updateKeys nextKeys time signerKey
      = some log2) : goodLog hash sign log2 := by
  obtain ⟨prev, e, hl, hlog2, hv, -, -⟩ :=
    update_spec hash sign log doc updateKeys nextKeys time signerKey log2 h
  rw [hlog2]
  exact goodLog_append hash sign log prev [e] hg hl ⟨hv, trivial⟩

theorem applyUpdates_good (hash : String → String) (sign : String → String → String) :
    ∀ (us : List UpdateInput) (log log2 : List LogEntry),
    goodLog hash sign log → applyUpdates hash sign log us = some log2 →
    goodLog hash sign log2 := by
  intro us
  induction us with
  | nil =>
    intro log log2 hg h
    obtain rfl := Option.some.inj h
    exact hg
  | cons u us ih =>
    intro log log2 hg h
    unfold applyUpdates at h
    cases hu : update hash sign log u.doc u.updateKeys u.nextKeys u.time
        u.signerKey with
    | none => rw [hu] at h; exact absurd h (by simp)
    | some log1 =>
      rw [hu] at h
      exact ih log1 log2
        (update_good hash sign log u.doc u.updateKeys u.nextKeys u.time
          u.signerKey log1 hg hu) h

theorem resolveFrom_ok (hash : String → String) (sign : String → String → String)
    (wps : List WitnessEntry) (skip : Bool) :
    ∀ (rest : List LogEntry) (prev : LogEntry),
    chainGood hash sign prev rest →
    (∀ e ∈ rest, witnessCheck sign skip wps e = .ok ()) →
    ∃ last, (prev :: rest).getLast? = some last ∧
      resolveFrom hash sign wps skip prev rest = .ok last := by
  intro rest
  induction rest with
  | nil => intro prev _ _; exact ⟨prev, by simp, rfl⟩
  | cons e rest2 ih =>
    intro prev hc hw
    obtain ⟨hv, hc2⟩ := hc
    obtain ⟨last, hl, hres⟩ :=
      ih e hc2 (fun x hx => hw x (List.mem_cons_of_mem _ hx))
    refine ⟨last, ?_, ?_⟩
    · rwa [List.getLast?_cons_cons]
    · simp only [resolveFrom, hv, hw e (List.mem_cons_self e rest2)]
      exact hres

theorem resolve_log_ok (hash : String → String) (sign : String → String → String)
    (log : List LogEntry) (wps : List WitnessEntry) (skip : Bool)
    (hg : goodLog hash sign log)
    (hw : ∀ e ∈ log, witnessCheck sign skip wps e = .ok ()) :
    ∃ last, log.getLast? = some last ∧
      resolve_log hash sign log (some wps) skip = .ok (last.state, mkMeta last) := by
  cases log with
  | nil => exact absurd hg (by simp [goodLog])
  | cons g rest =>
    obtain ⟨hgen, hchain⟩ := hg
    obtain ⟨last, hl, hres⟩ := resolveFrom_ok hash sign wps skip rest g hchain
      (fun e he => hw e (List.mem_cons_of_mem _ he))
    refine ⟨last, hl, ?_⟩
    simp only [resolve_log, Option.getD_some, hgen,
      hw g (List.mem_cons_self g rest), hres]

/-- C1: every log produced by Create, any sequence of Updates, and an
optional Deactivate resolves successfully — provided the supplied witness
proofs meet every witnessed entry's threshold (or witness checking is
disabled) — returning exactly the last entry's state, with
`didDocumentMetadata.deactivated = true` whenever the log ends in a
deactivation. -/
theorem C1_resolve_built_log (hash : String → String)
    (sign : String → String → String) (c : CreateInput) (us : List UpdateInput)
    (d : Option DeactivateInput) (log : List LogEntry)
    (wps : List WitnessEntry) (skip : Bool)
    (hb : buildLog hash sign c us d = some log)
    (hw : ∀ e ∈ log, witnessCheck sign skip wps e = .ok ()) :
    ∃ last, log.getLast? = some last ∧
      resolve_log hash sign log (some wps) skip = .ok (last.state, mkMeta last) ∧
      (∀ di, d = some di → last.parameters.deactivated = true) := by
  unfold buildLog at hb
  cases hcr : create hash sign c.doc c.updateKeys c.nextKeys c.witness
      c.portable c.ttl c.time c.signerKey with
  | none => rw [hcr] at hb; exact absurd hb (by simp)
  | some log1 =>
    rw [hcr] at hb
    dsimp only at hb
    cases hup : applyUpdates hash sign log1 us with
    | none => rw [hup] at hb; exact absurd hb (by simp)
    | some log2 =>
      rw [hup] at hb
      dsimp only at hb
      obtain ⟨g, hlog1, hgen, -, -, -⟩ :=
        create_spec hash sign c.doc c.updateKeys c.nextKeys c.witness
          c.portable c.ttl c.time c.signerKey log1 hcr
      have hgood1 : goodLog hash sign log1 := by
        rw [hlog1]; exact ⟨hgen, trivial⟩
      have hgood2 : goodLog hash sign log2 :=
        applyUpdates_good hash sign us log1 log2 hgood1 hup
      cases d with
      | none =>
        obtain rfl := Option.some.inj hb
        obtain ⟨last, hl, hres⟩ :=
          resolve_log_ok hash sign log2 wps skip hgood2 hw
        exact ⟨last, hl, hres, fun di hdi => by cases hdi⟩
      | some di =>
        obtain ⟨prev, tail, hlp, hlog, htne, hchain, dlast, hdl, hdeact, -⟩ :=
          deactivate_spec hash sign log2 di.updateKeys di.time1 di.time2
            di.signer1 di.signer2 log hb
        have hgood : goodLog hash sign log := by
          rw [hlog]
          exact goodLog_append hash sign log2 prev tail hgood2 hlp hchain
        obtain ⟨last, hl, hres⟩ := resolve_log_ok hash sign log wps skip hgood hw
        have hld : dlast = last := by
          rw [hlog, List.getLast?_append_of_ne_nil log2 htne, hdl] at hl
          exact Option.some.inj hl
        exact ⟨last, hl, hres, fun di2 hdi2 => hld ▸ hdeact⟩

/-- C2: with a next-key commitment in the genesis entry, Create followed by
Deactivate yields exactly 3 log entries, and Create, one Update (itself
committing next keys) and Deactivate yields exactly 4 — Deactivate first
emits a nullify entry because the previous entry's `nextKeyHashes` is
non-empty, then the terminal entry with `deactivated = true` and empty
`updateKeys`. -/
theorem C2_deactivate_chain_lengths (hash : String → String)
    (sign : String → String → String) (c : CreateInput) (u : UpdateInput)
    (di di2 : DeactivateInput) (log3 log4 : List LogEntry)
    (hnk : c.nextKeys ≠ [])
    (h3 : buildLog hash sign c [] (some di) = some log3)
    (hnku : u.nextKeys ≠ [])
    (h4 : buildLog hash sign c [u] (some di2) = some log4) :
    (log3.length = 3 ∧
      ∃ l3, log3.getLast? = some l3 ∧ l3.parameters.deactivated = true ∧
        l3.parameters.updateKeys = []) ∧
    (log4.length = 4 ∧
      ∃ l4, log4.getLast? = some l4 ∧ l4.parameters.deactivated = true ∧
        l4.parameters.updateKeys = []) := by
  unfold buildLog at h3 h4
  cases hcr : create hash sign c.doc c.updateKeys c.nextKeys c.witness
      c.portable c.ttl c.time c.signerKey with
  | none => rw [hcr] at h3; exact absurd h3 (by simp)
  | some log1 =>
    rw [hcr] at h3 h4
    dsimp only [applyUpdates] at h3 h4
    obtain ⟨g, hlog1, -, -, -, hgnkh⟩ :=
      create_spec hash sign c.doc c.updateKeys c.nextKeys c.witness
        c.portable c.ttl c.time c.signerKey log1 hcr
    subst hlog1
    have hgnk : g.parameters.nextKeyHashes ≠ [] := by
      rw [hgnkh]; simpa using hnk
    constructor
    · -- create then deactivate: 3 entries
      unfold deactivate at h3
      rw [show ([g] : List LogEntry).getLast? = some g from rfl] at h3
      dsimp only at h3
      rw [if_neg hgnk] at h3
      split_ifs at h3 with hg2
      obtain rfl := Option.some.inj h3
      exact ⟨rfl, _, rfl, rfl, rfl⟩
    · -- create, update, deactivate: 4 entries
      cases hu : update hash sign [g] u.doc u.updateKeys u.nextKeys u.time
          u.signerKey with
      | none => rw [hu] at h4; exact absurd h4 (by simp)
      | some logU =>
        rw [hu] at h4
        dsimp only at h4
        obtain ⟨prev, e, hlp, hlogU, -, -, henkh⟩ :=
          update_spec hash sign [g] u.doc u.updateKeys u.nextKeys u.time
            u.signerKey logU hu
        have hprev : g = prev := by simpa using hlp
        subst hprev
        subst hlogU
        have henk : e.parameters.nextKeyHashes ≠ [] := by
          rw [henkh]; simpa using hnku
        unfold deactivate at h4
        rw [show ([g] ++ [e] : List LogEntry).getLast? = some e from rfl] at h4
        dsimp only at h4
        rw [if_neg henk] at h4
        split_ifs at h4 with hg3
        obtain rfl := Option.some.inj h4
        exact ⟨rfl, _, rfl, rfl, rfl⟩

/-- C3: a 1-entry log whose parameters carry the witness configuration
threshold 60 with witnesses (w1, 50) and (w2, 40) resolves when both
witnesses supply valid proofs (90 ≥ 60), fails with `WitnessThreshold`
when only one does (50 < 60 and 40 < 60), and resolves regardless when the
caller disables witness checking. -/
theorem C3_witness_threshold (hash : String → String)
    (sign : String → String → String) (c : CreateInput) (w1 w2 : String)
    (g : LogEntry)
    (hw : c.witness = some ⟨60, [⟨w1, 50⟩, ⟨w2, 40⟩]⟩)
    (hne : w1 ≠ w2)
    (hcr : create hash sign c.doc c.updateKeys c.nextKeys c.witness c.portable
      c.ttl c.time c.signerKey = some [g]) :
    resolve_log hash sign [g]
        (some [⟨g.versionNumber, g.versionHash,
          [⟨w1, sign w1 (witnessMsg g)⟩, ⟨w2, sign w2 (witnessMsg g)⟩]⟩]) false
      = .ok (g.state, mkMeta g) ∧
    resolve_log hash sign [g]
        (some [⟨g.versionNumber, g.versionHash,
          [⟨w1, sign w1 (witnessMsg g)⟩]⟩]) false
      = .error .witnessThreshold ∧
    resolve_log hash sign [g]
        (some [⟨g.versionNumber, g.versionHash,
          [⟨w2, sign w2 (witnessMsg g)⟩]⟩]) false
      = .error .witnessThreshold ∧
    resolve_log hash sign [g] none true = .ok (g.state, mkMeta g) := by
  obtain ⟨g2, hg2, hgen, hwit, -, -⟩ :=
    create_spec hash sign c.doc c.updateKeys c.nextKeys c.witness c.portable
      c.ttl c.time c.signerKey [g] hcr
  have hgg : g = g2 := by simpa using hg2
  subst hgg
  rw [hw] at hwit
  have h12 : (w1 == w2) = false := beq_false_of_ne hne
  have h21 : (w2 == w1) = false := beq_false_of_ne (Ne.symm hne)
  refine ⟨?_, ?_, ?_, ?_⟩
  · simp [resolve_log, hgen, witnessCheck, hwit, witnessWeight,
      findWitnessEntry, witnessMsg, resolveFrom, h12, h21]
  · simp [resolve_log, hgen, witnessCheck, hwit, witnessWeight,
      findWitnessEntry, witnessMsg, resolveFrom, h12, h21]
  · simp [resolve_log, hgen, witnessCheck, hwit, witnessWeight,
      findWitnessEntry, witnessMsg, resolveFrom, h12, h21]
  · simp [resolve_log, hgen, witnessCheck, resolveFrom]

/-- Witness for C1: the unwitnessed single-entry log built from `exC1`
resolves (witness checking disabled). -/
theorem C1_resolve_built_log_witness :
    ∃ last, ((buildLog exHash exSign exC1 [] none).getD []).getLast?
        = some last ∧
      resolve_log exHash exSign ((buildLog exHash exSign exC1 [] none).getD [])
        (some []) true = .ok (last.state, mkMeta last) ∧
      (∀ di, (none : Option DeactivateInput) = some di →
        last.parameters.deactivated = true) :=
  C1_resolve_built_log exHash exSign exC1 [] none _ [] true (by rfl)
    (fun _ _ => rfl)

/-- Witness for C2 on the concrete create / update / deactivate inputs. -/
theorem C2_deactivate_chain_lengths_witness :
    (((buildLog exHash exSign exC2 [] (some exD3)).getD []).length = 3 ∧
      ∃ l3, ((buildLog exHash exSign exC2 [] (some exD3)).getD []).getLast?
          = some l3 ∧
        l3.parameters.deactivated = true ∧ l3.parameters.updateKeys = []) ∧
    (((buildLog exHash exSign exC2 [exU2] (some exD4)).getD []).length = 4 ∧
      ∃ l4, ((buildLog exHash exSign exC2 [exU2] (some exD4)).getD []).getLast?
          = some l4 ∧
        l4.parameters.deactivated = true ∧ l4.parameters.updateKeys = []) :=
  C2_deactivate_chain_lengths exHash exSign exC2 exU2 exD3 exD4 _ _
    (by decide) (by rfl) (by decide) (by rfl)

/-- Witness for C3 on the concrete witnessed genesis entry. -/
theorem C3_witness_threshold_witness :
    resolve_log exHash exSign [exG3]
        (some [⟨exG3.versionNumber, exG3.versionHash,
          [⟨"w1", exSign "w1" (witnessMsg exG3)⟩,
           ⟨"w2", exSign "w2" (witnessMsg exG3)⟩]⟩]) false
      = .ok (exG3.state, mkMeta exG3) ∧
    resolve_log exHash exSign [exG3]
        (some [⟨exG3.versionNumber, exG3.versionHash,
          [⟨"w1", exSign "w1" (witnessMsg exG3)⟩]⟩]) false
      = .error .witnessThreshold ∧
    resolve_log exHash exSign [exG3]
        (some [⟨exG3.versionNumber, exG3.versionHash,
          [⟨"w2", exSign "w2" (witnessMsg exG3)⟩]⟩]) false
      = .error .witnessThreshold ∧
    resolve_log exHash exSign [exG3] none true = .ok (exG3.state, mkMeta exG3) :=
  C3_witness_threshold exHash exSign exC3 "w1" "w2" exG3 rfl (by decide) (by rfl)

/-- Witness for C9: a keyring whose current "signing" key is overwritten by
the pending next key, with a fresh next key regenerated. -/
theorem C9_keyring_rotate_witness :
    mapLookup ((Keyring.mk [("signing", "old")] [("signing", "n1")] "").rotate
      (fun id => "fresh-" ++ id)).keys "signing" = some "n1" ∧
    mapLookup ((Keyring.mk [("signing", "old")] [("signing", "n1")] "").rotate
      (fun id => "fresh-" ++ id)).next_keys "signing" = some "fresh-signing" :=
  ⟨(C9_keyring_rotate (fun id => "fresh-" ++ id)
      (Keyring.mk [("signing", "old")] [("signing", "n1")] "") (by decide)).1
      "signing" "n1" (by decide),
   (C9_keyring_rotate (fun id => "fresh-" ++ id)
      (Keyring.mk [("signing", "old")] [("signing", "n1")] "") (by decide)).2
      "signing" (by decide)⟩

end Credibil
